import Mathlib

/-!
Verification of `holoviews/core/io.py`.

The module defines two abstract extension points, `Exporter` and `Archive`,
plus one concrete exporter, `Pickler`.  The embedding below translates:

* the Python data objects a `Pickler` is applied to (plain ints, strings,
  lists, plus a constructor standing for objects the pickle routine
  rejects, e.g. a lambda) as the inductive `PyObj`;
* the standard-library `pickle` module (outside this repository) as a
  concrete, executable byte encoding `dumps` / decoding `loads` that
  mirrors the structure of the real pickle wire format: a protocol-0
  text-style encoding, binary opcodes for small ints at protocols >= 1,
  the `0x80 <protocol>` PROTO header at protocols >= 2, a single
  opcode-dispatched decoder for all protocols, and a trailing STOP
  (`.` = 46) byte;
* `Pickler.__call__` as `Pickler.call`, returning the payload bytes paired
  with the metadata association list built exactly as in the source;
* `Pickler.save`, which in the source opens `basename+'.pkl'` in TEXT mode
  (`'w'`) and then calls `pickle.dump`, against a small filesystem state
  `FS`; the text-mode write of binary pickle data is modelled with CPython 3
  semantics (the handle rejects bytes with `TypeError`);
* the base-class methods of `Exporter` and `Archive`, which unconditionally
  raise `NotImplementedError`;
* Python call-arity binding for `__call__` (`picklerInvoke`,
  `exporterInvoke`), derived from the `def` signatures in the source;
* the `param.ClassSelector(class_=Exporter)` validation of
  `Archive.exporter`.
-/

namespace HoloviewsIO

/-- Python objects handled by the embedding: the plain-data objects the
spec's round-trip law quantifies over (ints, strings, lists of these), plus
`unpicklable`, standing for an object graph the pickle routine rejects
(e.g. a lambda), used to exercise the error path. -/
inductive PyObj where
  | int (n : Int)
  | str (s : String)
  | list (xs : List PyObj)
  | unpicklable (name : String)

/-- Python exception values raised by the modelled code paths. -/
inductive PyError where
  | notImplementedError (msg : Option String)
  | typeError (msg : String)
  | valueError (msg : String)
  | picklingError (msg : String)
deriving DecidableEq

/-- A value stored in the metadata mapping returned by an exporter. -/
inductive MetaVal where
  | str (s : String)
  | nat (n : Nat)
deriving DecidableEq

/-- The metadata mapping `{'file-ext': ..., 'size': ..., 'mime-type': ...}`
returned by `Pickler.__call__`, modelled as an association list in the
order the dict literal is written in the source. -/
abbrev PMeta := List (String × MetaVal)

/-- Dictionary lookup on the metadata mapping. -/
def lookupMeta (m : PMeta) (k : String) : Option MetaVal :=
  match m with
  | [] => none
  | (k1, v) :: tl => if k1 = k then some v else lookupMeta tl k

/-! ## Decimal digits (used by the text-style pickle opcodes) -/

/-- Accumulator form of decimal printing: the ASCII digit bytes of `n`
followed by `acc`. -/
def natDigitsAux (n : Nat) (acc : List Nat) : List Nat :=
  if h : n < 10 then (48 + n) :: acc
  else natDigitsAux (n / 10) ((48 + n % 10) :: acc)
termination_by n
decreasing_by
  exact Nat.div_lt_self (by omega) (by omega)

/-- The ASCII decimal digit bytes of `n` (most significant first). -/
def natDigits (n : Nat) : List Nat := natDigitsAux n []

/-- Value of a digit-byte list read most-significant-first, starting from
accumulator `i`. -/
def digitsVal (i : Nat) (ds : List Nat) : Nat :=
  ds.foldl (fun a d => a * 10 + (d - 48)) i

/-- Parse a nonempty all-digit byte list back to the number it denotes. -/
def digitsToNat (ds : List Nat) : Option Nat :=
  if ds = [] then none
  else if ds.all (fun d => Nat.ble 48 d && Nat.ble d 57) then some (digitsVal 0 ds)
  else none

/-- ASCII bytes of an integer: optional `-` (45) then decimal digits, as in
the pickle protocol-0 `I` opcode argument. -/
def intAscii (n : Int) : List Nat :=
  if n < 0 then 45 :: natDigits n.natAbs else natDigits n.toNat

/-! ## The pickle encoder (model of stdlib `pickle.dumps`) -/

mutual
/-- Body encoding of one object.  Opcodes as in real pickle: `I` (73)
ASCII int, `K` (75) one-byte unsigned int (binary protocols), `S` (83)
string (length line then the character code points), `(` `l` (40, 108)
list begin, `a` (97) append, and 101 (`e`) closing a list.  An
`unpicklable` object fails with `PicklingError`, as stdlib pickle does on
e.g. a lambda. -/
def encodeObj (bin : Bool) : PyObj → Except PyError (List Nat)
  | .int n =>
      if bin = true ∧ 0 ≤ n ∧ n < 256 then .ok [75, n.toNat]
      else .ok (73 :: intAscii n ++ [10])
  | .str s => .ok (83 :: natDigits s.length ++ [10] ++ s.data.map Char.toNat)
  | .list xs => do
      let inner ← encodeList bin xs
      .ok (40 :: 108 :: (inner ++ [101]))
  | .unpicklable name => .error (.picklingError name)

/-- Encoding of the elements of a list, each followed by the append
opcode `a` (97). -/
def encodeList (bin : Bool) : List PyObj → Except PyError (List Nat)
  | [] => .ok []
  | x :: xs => do
      let hx ← encodeObj bin x
      let t ← encodeList bin xs
      .ok (hx ++ 97 :: t)
end

/-- Model of `pickle.dumps(obj, protocol=p)`: PROTO header `0x80 p` at
protocols >= 2, binary small-int opcode at protocols >= 1, then the body
and the STOP byte `.` (46). -/
def dumps (protocol : Int) (o : PyObj) : Except PyError (List Nat) := do
  let body ← encodeObj (decide (1 ≤ protocol)) o
  .ok ((if 2 ≤ protocol then [128, protocol.toNat] else []) ++ body ++ [46])

/-! ## Pickler -/

/-- The `Pickler` exporter: its one parameter, the pickling protocol,
an integer defaulting to 2 (`param.Integer(default=2)`). -/
structure Pickler where
  protocol : Int := 2
deriving DecidableEq

/-- `Pickler.__call__(self, obj)`:
`data = pickle.dumps(obj, protocol=self.protocol)` then
`return data, {'file-ext':'pkl', 'size':len(data),
'mime-type':'application/python-pickle'}`. -/
def Pickler.call (p : Pickler) (obj : PyObj) :
    Except PyError (List Nat × PMeta) := do
  let data ← dumps p.protocol obj
  .ok (data, [("file-ext", .str "pkl"),
              ("size", .nat data.length),
              ("mime-type", .str "application/python-pickle")])

/-! ## The pickle decoder (model of stdlib `pickle.loads`) -/

/-- Read bytes up to (not including) the first newline (10); return them
with the remainder after the newline. -/
def readLine : List Nat → Option (List Nat × List Nat)
  | [] => none
  | b :: rest =>
      if b = 10 then some ([], rest)
      else
        match readLine rest with
        | some (l, r) => some (b :: l, r)
        | none => none

/-- Interpret the argument line of the `I` opcode: optional `-` (45) then
decimal digits. -/
def lineToInt (ds : List Nat) : Option Int :=
  match ds with
  | [] => none
  | d :: tl =>
      if d = 45 then
        match digitsToNat tl with
        | some k => some (-(k : Int))
        | none => none
      else
        match digitsToNat (d :: tl) with
        | some k => some ((k : Int))
        | none => none

mutual
/-- Fuel-indexed opcode-dispatched decoder for one value, as the real
unpickler dispatches on opcode bytes regardless of the protocol header.
Returns the decoded object and the unconsumed bytes. -/
def parseVal : Nat → List Nat → Option (PyObj × List Nat)
  | 0, _ => none
  | _ + 1, [] => none
  | fuel + 1, b :: rest =>
      if b = 73 then
        match readLine rest with
        | some (line, r) =>
            match lineToInt line with
            | some n => some (.int n, r)
            | none => none
        | none => none
      else if b = 75 then
        match rest with
        | [] => none
        | v :: r => some (.int (v : Int), r)
      else if b = 83 then
        match readLine rest with
        | some (line, r) =>
            match digitsToNat line with
            | some len =>
                if len ≤ r.length then
                  some (.str (String.mk ((r.take len).map Char.ofNat)), r.drop len)
                else none
            | none => none
        | none => none
      else if b = 40 then
        match rest with
        | 108 :: r =>
            match parseItems fuel r with
            | some (xs, r2) => some (.list xs, r2)
            | none => none
        | _ => none
      else none

/-- Decode list elements (each followed by the append opcode 97) up to the
closing 101 byte. -/
def parseItems : Nat → List Nat → Option (List PyObj × List Nat)
  | 0, _ => none
  | _ + 1, [] => none
  | fuel + 1, b :: rest =>
      if b = 101 then some ([], rest)
      else
        match parseVal fuel (b :: rest) with
        | some (x, r) =>
            match r with
            | 97 :: r2 =>
                match parseItems fuel r2 with
                | some (xs, r3) => some (x :: xs, r3)
                | none => none
            | _ => none
        | none => none
end

/-- Drop the two-byte PROTO header `0x80 p` when present. -/
def stripHeader (bs : List Nat) : List Nat :=
  match bs with
  | b :: _ :: rest => if b = 128 then rest else bs
  | _ => bs

/-- Model of `pickle.loads`: strip the PROTO header if present, decode one
value, and require the STOP byte `.` (46) to follow. -/
def loads (bytes : List Nat) : Option PyObj :=
  let body := stripHeader bytes
  match parseVal body.length body with
  | some (o, 46 :: _) => some o
  | _ => none

/-! ## Plain data -/

mutual
/-- Plain-data objects (nested ints, strings, lists): the objects the
spec's round-trip law ranges over; exactly those on which the pickle model
cannot fail. -/
def plainObj : PyObj → Bool
  | .int _ => true
  | .str _ => true
  | .list xs => plainList xs
  | .unpicklable _ => false

/-- All elements of the list are plain data. -/
def plainList : List PyObj → Bool
  | [] => true
  | x :: xs => plainObj x && plainList xs
end

/-! ## Filesystem state and `Pickler.save` -/

/-- Ambient filesystem state threaded through `save`: file contents by
path, and the set (as a list) of currently open handles. -/
structure FS where
  files : List (String × List Nat) := []
  openHandles : List String := []
deriving DecidableEq

/-- The contents of the file at `path`, if it exists. -/
def fsRead (fs : FS) (path : String) : Option (List Nat) :=
  match fs.files.find? (fun e => e.1 = path) with
  | some e => some e.2
  | none => none

/-- Model of `open(path, 'w')`: create or truncate the file at `path`
(contents now empty) and open a handle on it. -/
def fsOpenW (fs : FS) (path : String) : FS :=
  { files := (path, []) :: fs.files, openHandles := path :: fs.openHandles }

/-- Closing the handle on `path`. -/
def fsClose (fs : FS) (path : String) : FS :=
  { fs with openHandles := fs.openHandles.erase path }

/-- Model of `pickle.dump(obj, f, protocol)` on a TEXT-mode handle, with
CPython 3 semantics: the pickle payload is binary, and the first `write`
of bytes to a text-mode handle raises
`TypeError: write() argument must be str, not bytes` (at the default
protocol 2 this first write is the PROTO header, before any object
traversal), so no data reaches the file. -/
def pickleDumpTextMode (fs : FS) (path : String) (protocol : Int)
    (obj : PyObj) : FS × Except PyError Unit :=
  (fs, .error (.typeError "write() argument must be str, not bytes"))

/-- `Pickler.save(self, obj, basename)`:
`with open(basename+'.pkl', 'w') as f: pickle.dump(obj, f,
protocol=self.protocol)`.  The `with` statement closes the handle on both
the normal and the exceptional exit. -/
def Pickler.save (p : Pickler) (fs : FS) (obj : PyObj) (basename : String) :
    FS × Except PyError Unit :=
  let path := basename ++ ".pkl"
  let fs1 := fsOpenW fs path
  let (fs2, r) := pickleDumpTextMode fs1 path p.protocol obj
  (fsClose fs2 path, r)

/-! ## The abstract base classes -/

/-- `Exporter.__call__(self, obj, fmt=None)`: unconditionally
`raise NotImplementedError("Exporter not implemented.")`. -/
def Exporter.call (obj : PyObj) (fmt : Option PyObj) :
    Except PyError (List Nat × PMeta) :=
  .error (.notImplementedError (some "Exporter not implemented."))

/-- `Exporter.save(self, obj, basename, fmt=None)`: unconditionally
`raise NotImplementedError("Exporter save method not implemented.")`;
the filesystem state is untouched. -/
def Exporter.save (fs : FS) (obj : PyObj) (basename : String)
    (fmt : Option PyObj) : FS × Except PyError Unit :=
  (fs, .error (.notImplementedError (some "Exporter save method not implemented.")))

/-! ## Call-arity binding -/

/-- Python argument binding for `Pickler.__call__(self, obj)`, derived
from the `def` signature: exactly one positional argument binds; any other
count raises `TypeError`. -/
def picklerInvoke (p : Pickler) (args : List PyObj) :
    Except PyError (List Nat × PMeta) :=
  match args with
  | [obj] => p.call obj
  | _ => .error (.typeError "__call__ takes 2 positional arguments")

/-- Python argument binding for the base `Exporter.__call__(self, obj,
fmt=None)`: one or two positional arguments bind (with `fmt` defaulting
to `None`); any other count raises `TypeError`. -/
def exporterInvoke (args : List PyObj) : Except PyError (List Nat × PMeta) :=
  match args with
  | [obj] => Exporter.call obj none
  | [obj, f] => Exporter.call obj (some f)
  | _ => .error (.typeError "__call__ takes at most 3 positional arguments")

/-! ## Archive -/

/-- Instances of the `Exporter` class usable as an `Archive.exporter`
value: the base class itself or a `Pickler`. -/
inductive ExporterInst where
  | base
  | pickler (p : Pickler)
deriving DecidableEq

/-- Python values one may try to store in the `exporter` parameter. -/
inductive PyVal where
  | pyNone
  | pyExporter (e : ExporterInst)
  | pyInt (n : Int)
  | pyStr (s : String)
deriving DecidableEq

/-- The acceptance test of `param.ClassSelector(class_=Exporter)` with
default `None` (so `allow_None` is in force): the value must be `None` or
an `Exporter` instance. -/
def isExporterOrNone : PyVal → Bool
  | .pyNone => true
  | .pyExporter _ => true
  | _ => false

/-- The `Archive` base class: its one parameter, the bound exporter,
a `param.ClassSelector(class_=Exporter)` defaulting to `None`. -/
structure Archive where
  exporter : PyVal := .pyNone
deriving DecidableEq

/-- Model of the `param.ClassSelector` validation run on construction and
on assignment to `Archive.exporter`: a non-`Exporter`, non-`None` value
raises `ValueError`. -/
def Archive.setExporter (a : Archive) (v : PyVal) : Except PyError Archive :=
  if isExporterOrNone v then .ok { a with exporter := v }
  else .error (.valueError "exporter must be an instance of Exporter")

/-- Constructing `Archive(exporter=v)`: validation as on assignment,
starting from the defaults. -/
def archiveNew (v : PyVal) : Except PyError Archive :=
  Archive.setExporter {} v

/-- `Archive.add(self, obj, *args, **kwargs)`: unconditionally
`raise NotImplementedError` (no message); the archive is untouched. -/
def Archive.add (a : Archive) (obj : PyObj) (args : List PyObj)
    (kwargs : List (String × PyObj)) : Archive × Except PyError Unit :=
  (a, .error (.notImplementedError none))

/-- `Archive.export(self, *args, **kwargs)` (named `exportArchive` here
because `export` is reserved in Lean): unconditionally
`raise NotImplementedError`; the archive is untouched. -/
def Archive.exportArchive (a : Archive) (args : List PyObj)
    (kwargs : List (String × PyObj)) : Archive × Except PyError Unit :=
  (a, .error (.notImplementedError none))

/-- The operations a caller can perform on an `Archive` after
construction. -/
inductive ArchiveOp where
  | setExporter (v : PyVal)
  | add (obj : PyObj) (args : List PyObj) (kwargs : List (String × PyObj))
  | exportOp (args : List PyObj) (kwargs : List (String × PyObj))

/-- The archive state after one operation (on a raised error the state is
whatever it was before, since the methods mutate nothing before
raising). -/
def Archive.applyOp (a : Archive) : ArchiveOp → Archive
  | .setExporter v =>
      match a.setExporter v with
      | .ok a2 => a2
      | .error _ => a
  | .add obj args kwargs => (a.add obj args kwargs).1
  | .exportOp args kwargs => (a.exportArchive args kwargs).1

/-- Statelessness of `Pickler.__call__`: the call body performs no I/O, so
threading the ambient filesystem state through it leaves the state
untouched and the result depends only on the pickler and the object. -/
def Pickler.callIn (p : Pickler) (fs : FS) (obj : PyObj) :
    FS × Except PyError (List Nat × PMeta) :=
  (fs, p.call obj)

/-! ## Lemmas about decimal digits -/

theorem natDigitsAux_pos (n : Nat) (acc : List Nat) (h : n < 10) :
    natDigitsAux n acc = (48 + n) :: acc := by
  rw [natDigitsAux]
  simp [h]

theorem natDigitsAux_step (n : Nat) (acc : List Nat) (h : ¬ n < 10) :
    natDigitsAux n acc = natDigitsAux (n / 10) ((48 + n % 10) :: acc) := by
  rw [natDigitsAux]
  simp [h]

theorem natDigitsAux_append (n : Nat) :
    ∀ acc, natDigitsAux n acc = natDigitsAux n [] ++ acc := by
  induction n using Nat.strong_induction_on with
  | _ n ih =>
    intro acc
    by_cases h : n < 10
    · rw [natDigitsAux_pos n acc h, natDigitsAux_pos n [] h]
      simp
    · have hd : n / 10 < n := Nat.div_lt_self (by omega) (by omega)
      rw [natDigitsAux_step n acc h, natDigitsAux_step n [] h,
          ih (n / 10) hd ((48 + n % 10) :: acc), ih (n / 10) hd [48 + n % 10]]
      simp

theorem natDigits_cons_step (n : Nat) (h : ¬ n < 10) :
    natDigits n = natDigits (n / 10) ++ [48 + n % 10] := by
  rw [natDigits, natDigitsAux]
  simp only [h, dite_false]
  rw [natDigitsAux_append]
  rfl

theorem natDigits_small (n : Nat) (h : n < 10) : natDigits n = [48 + n] := by
  rw [natDigits, natDigitsAux]
  simp [h]

theorem natDigits_mem (n : Nat) : ∀ d ∈ natDigits n, 48 ≤ d ∧ d ≤ 57 := by
  induction n using Nat.strong_induction_on with
  | _ n ih =>
    intro d hd
    by_cases h : n < 10
    · rw [natDigits_small n h] at hd
      simp at hd
      omega
    · rw [natDigits_cons_step n h] at hd
      rcases List.mem_append.mp hd with h1 | h2
      · exact ih (n / 10) (Nat.div_lt_self (by omega) (by omega)) d h1
      · simp at h2
        have : n % 10 < 10 := Nat.mod_lt _ (by omega)
        omega

theorem natDigits_ne_nil (n : Nat) : natDigits n ≠ [] := by
  by_cases h : n < 10
  · rw [natDigits_small n h]
    simp
  · rw [natDigits_cons_step n h]
    simp

theorem digitsVal_append_one (i : Nat) (ds : List Nat) (d : Nat) :
    digitsVal i (ds ++ [d]) = digitsVal i ds * 10 + (d - 48) := by
  rw [digitsVal, List.foldl_append]
  rfl

theorem digitsVal_natDigits (n : Nat) : digitsVal 0 (natDigits n) = n := by
  induction n using Nat.strong_induction_on with
  | _ n ih =>
    by_cases h : n < 10
    · rw [natDigits_small n h]
      simp [digitsVal]
    · rw [natDigits_cons_step n h, digitsVal_append_one,
          ih (n / 10) (Nat.div_lt_self (by omega) (by omega))]
      omega

theorem digitsToNat_natDigits (n : Nat) : digitsToNat (natDigits n) = some n := by
  rw [digitsToNat]
  rw [if_neg (natDigits_ne_nil n)]
  have hall : (natDigits n).all (fun d => Nat.ble 48 d && Nat.ble d 57) = true := by
    rw [List.all_eq_true]
    intro d hd
    have := natDigits_mem n d hd
    simp [Nat.ble_eq]
    omega
  rw [if_pos hall, digitsVal_natDigits]

/-! ## Lemmas about line reading and integer lines -/

theorem readLine_append (ds : List Nat) (rest : List Nat)
    (h : ∀ d ∈ ds, d ≠ 10) : readLine (ds ++ 10 :: rest) = some (ds, rest) := by
  induction ds with
  | nil => simp [readLine]
  | cons d tl ih =>
    have hd : d ≠ 10 := h d (by simp)
    have htl : ∀ x ∈ tl, x ≠ 10 := fun x hx => h x (by simp [hx])
    rw [List.cons_append, readLine, if_neg hd, ih htl]

theorem intAscii_no10 (n : Int) : ∀ d ∈ intAscii n, d ≠ 10 := by
  intro d hd
  rw [intAscii] at hd
  split at hd
  · simp at hd
    rcases hd with h | h
    · omega
    · have := natDigits_mem _ d h
      omega
  · have := natDigits_mem _ d hd
    omega

theorem lineToInt_intAscii (n : Int) : lineToInt (intAscii n) = some n := by
  rw [intAscii]
  split
  · rename_i h
    simp only [lineToInt, digitsToNat_natDigits, if_pos, Option.some.injEq,
      reduceIte]
    omega
  · rename_i h
    obtain ⟨d, tl, hdt⟩ := List.exists_cons_of_ne_nil (natDigits_ne_nil n.toNat)
    have hd48 : 48 ≤ d := (natDigits_mem n.toNat d (by rw [hdt]; simp)).1
    rw [hdt, lineToInt, if_neg (by omega), ← hdt, digitsToNat_natDigits]
    simp only [Option.some.injEq]
    omega

/-! ## Lemmas about the encoder -/

@[simp] theorem ok_bind {ε : Type u} {α : Type v} {β : Type v} (a : α)
    (f : α → Except ε β) : (Except.ok a >>= f) = f a := rfl

@[simp] theorem error_bind {ε : Type u} {α : Type v} {β : Type v} (e : ε)
    (f : α → Except ε β) : ((Except.error e : Except ε α) >>= f) = .error e := rfl

theorem encodeObj_head (bin : Bool) (o : PyObj) (bs : List Nat)
    (h : encodeObj bin o = .ok bs) :
    ∃ tl, bs = 73 :: tl ∨ bs = 75 :: tl ∨ bs = 83 :: tl ∨ bs = 40 :: tl := by
  cases o with
  | int n =>
    rw [encodeObj] at h
    split at h
    · exact ⟨[n.toNat], by simp_all⟩
    · exact ⟨intAscii n ++ [10], by simp_all⟩
  | str s =>
    rw [encodeObj] at h
    exact ⟨natDigits s.length ++ [10] ++ s.data.map Char.toNat, by simp_all⟩
  | list xs =>
    rw [encodeObj] at h
    cases hl : encodeList bin xs with
    | ok inner =>
      rw [hl] at h
      simp only [ok_bind] at h
      exact ⟨108 :: (inner ++ [101]), by simp_all⟩
    | error e => rw [hl] at h; simp at h
  | unpicklable name => rw [encodeObj] at h; simp at h

theorem encodeObj_head_ne (bin : Bool) (o : PyObj) (bs : List Nat)
    (h : encodeObj bin o = .ok bs) (b : Nat)
    (hb : b = 101 ∨ b = 128 ∨ b = 46) : ∃ c tl, bs = c :: tl ∧ c ≠ b := by
  obtain ⟨tl, htl⟩ := encodeObj_head bin o bs h
  rcases htl with h1 | h1 | h1 | h1 <;> exact ⟨_, tl, h1, by omega⟩

mutual
theorem encodeObj_ok_of_plain (bin : Bool) (o : PyObj)
    (h : plainObj o = true) : ∃ bs, encodeObj bin o = .ok bs :=
  match o with
  | .int n => by
    rw [encodeObj]
    split
    · exact ⟨_, rfl⟩
    · exact ⟨_, rfl⟩
  | .str s => ⟨_, rfl⟩
  | .list xs => by
    obtain ⟨bs, hbs⟩ := encodeList_ok_of_plain bin xs (by rw [plainObj] at h; exact h)
    exact ⟨_, by rw [encodeObj, hbs]; rfl⟩
  | .unpicklable name => by rw [plainObj] at h; simp at h

theorem encodeList_ok_of_plain (bin : Bool) (xs : List PyObj)
    (h : plainList xs = true) : ∃ bs, encodeList bin xs = .ok bs :=
  match xs with
  | [] => ⟨[], rfl⟩
  | x :: tl => by
    rw [plainList, Bool.and_eq_true] at h
    obtain ⟨bx, hbx⟩ := encodeObj_ok_of_plain bin x h.1
    obtain ⟨bt, hbt⟩ := encodeList_ok_of_plain bin tl h.2
    exact ⟨_, by rw [encodeList, hbx, hbt]; rfl⟩
end

/-! ## Fuel accounting for the decoder -/

mutual
/-- Fuel sufficient for `parseVal` to decode the encoding of `o`. -/
def needVal : PyObj → Nat
  | .int _ => 1
  | .str _ => 1
  | .list xs => 1 + needItems xs
  | .unpicklable _ => 1

/-- Fuel sufficient for `parseItems` to decode the encoded elements. -/
def needItems : List PyObj → Nat
  | [] => 1
  | x :: xs => 1 + needVal x + needItems xs
end

mutual
theorem needVal_le (bin : Bool) (o : PyObj) (bs : List Nat)
    (h : encodeObj bin o = .ok bs) : needVal o ≤ bs.length :=
  match o with
  | .int n => by
    rw [needVal]
    obtain ⟨tl, htl⟩ := encodeObj_head bin (.int n) bs h
    rcases htl with h1 | h1 | h1 | h1 <;> simp [h1]
  | .str s => by
    rw [needVal]
    obtain ⟨tl, htl⟩ := encodeObj_head bin (.str s) bs h
    rcases htl with h1 | h1 | h1 | h1 <;> simp [h1]
  | .list xs => by
    rw [encodeObj] at h
    cases hl : encodeList bin xs with
    | ok inner =>
      rw [hl] at h
      simp only [ok_bind, Except.ok.injEq] at h
      have := needItems_le bin xs inner hl
      rw [needVal, ← h]
      simp
      omega
    | error e => rw [hl] at h; simp at h
  | .unpicklable name => by rw [encodeObj] at h; simp at h

theorem needItems_le (bin : Bool) (xs : List PyObj) (bs : List Nat)
    (h : encodeList bin xs = .ok bs) : needItems xs ≤ bs.length + 1 :=
  match xs with
  | [] => by
    rw [encodeList] at h
    simp only [Except.ok.injEq] at h
    rw [needItems, ← h]
    simp
  | x :: tl => by
    rw [encodeList] at h
    cases hx : encodeObj bin x with
    | ok bx =>
      rw [hx] at h
      simp only [ok_bind] at h
      cases ht : encodeList bin tl with
      | ok bt =>
        rw [ht] at h
        simp only [ok_bind, Except.ok.injEq] at h
        have h1 := needVal_le bin x bx hx
        have h2 := needItems_le bin tl bt ht
        rw [needItems, ← h]
        simp
        omega
      | error e => rw [ht] at h; simp at h
    | error e => rw [hx] at h; simp at h
end

/-! ## Decode-encode round trip -/

theorem one_le_needVal (o : PyObj) : 1 ≤ needVal o := by
  cases o <;> rw [needVal] <;> omega

theorem one_le_needItems (xs : List PyObj) : 1 ≤ needItems xs := by
  cases xs <;> rw [needItems] <;> omega

theorem natDigits_no10 (n : Nat) : ∀ d ∈ natDigits n, d ≠ 10 := by
  intro d hd
  have := natDigits_mem n d hd
  omega

theorem string_mk_data (s : String) : String.mk s.data = s := rfl

theorem string_bytes_round (s : String) :
    String.mk ((s.data.map Char.toNat).map Char.ofNat) = s := by
  rw [List.map_map]
  have h : ∀ l : List Char, l.map (Char.ofNat ∘ Char.toNat) = l := by
    intro l
    induction l with
    | nil => rfl
    | cons c tl ih => simp [Function.comp, Char.ofNat_toNat, ih]
  rw [h]

theorem string_comp_round (s : String) :
    String.mk (s.data.map (Char.ofNat ∘ Char.toNat)) = s := by
  have h : ∀ l : List Char, l.map (Char.ofNat ∘ Char.toNat) = l := by
    intro l
    induction l with
    | nil => rfl
    | cons c tl ih => simp [Function.comp, Char.ofNat_toNat, ih]
  rw [h]

mutual
theorem parseVal_encode (bin : Bool) (o : PyObj) (bs : List Nat)
    (henc : encodeObj bin o = .ok bs) (fuel : Nat) (hf : needVal o ≤ fuel)
    (rest : List Nat) : parseVal fuel (bs ++ rest) = some (o, rest) := by
  obtain ⟨f, rfl⟩ : ∃ f, fuel = f + 1 := by
    have := one_le_needVal o
    cases fuel with
    | zero => omega
    | succ f => exact ⟨f, rfl⟩
  cases o with
  | int n =>
    rw [encodeObj] at henc
    split at henc
    · rename_i hcond
      obtain ⟨hbin, h0, h256⟩ := hcond
      simp only [Except.ok.injEq] at henc
      subst henc
      simp [parseVal, Int.toNat_of_nonneg h0]
    · simp only [Except.ok.injEq] at henc
      subst henc
      have hshape : (73 :: intAscii n ++ [10]) ++ rest
          = 73 :: (intAscii n ++ 10 :: rest) := by simp
      rw [hshape]
      simp [parseVal, readLine_append (intAscii n) rest (intAscii_no10 n),
        lineToInt_intAscii]
  | str s =>
    rw [encodeObj] at henc
    simp only [Except.ok.injEq] at henc
    subst henc
    have hshape : (83 :: natDigits s.length ++ [10] ++ s.data.map Char.toNat) ++ rest
        = 83 :: (natDigits s.length ++ 10 :: (s.data.map Char.toNat ++ rest)) := by
      simp
    rw [hshape]
    have hlen : (s.data.map Char.toNat).length = s.length := by
      rw [List.length_map]
      rfl
    have hcond : s.length ≤ (s.data.map Char.toNat ++ rest).length := by
      rw [List.length_append, hlen]
      omega
    have htake : (s.data.map Char.toNat ++ rest).take s.length
        = s.data.map Char.toNat := by
      rw [← hlen]
      exact List.take_left _ _
    have hdrop : (s.data.map Char.toNat ++ rest).drop s.length = rest := by
      rw [← hlen]
      exact List.drop_left _ _
    simp [parseVal, readLine_append _ _ (natDigits_no10 s.length),
      digitsToNat_natDigits, hcond, htake, hdrop, string_bytes_round,
      string_comp_round]
  | list xs =>
    rw [encodeObj] at henc
    cases hl : encodeList bin xs with
    | error e => rw [hl] at henc; simp at henc
    | ok inner =>
      rw [hl] at henc
      simp only [ok_bind, Except.ok.injEq] at henc
      subst henc
      have hshape : (40 :: 108 :: (inner ++ [101])) ++ rest
          = 40 :: 108 :: (inner ++ 101 :: rest) := by simp
      rw [hshape]
      rw [needVal] at hf
      have hpi : parseItems f (inner ++ 101 :: rest) = some (xs, rest) :=
        parseItems_encode bin xs inner hl f (by omega) rest
      simp [parseVal, hpi]
  | unpicklable name =>
    rw [encodeObj] at henc
    simp at henc

theorem parseItems_encode (bin : Bool) (xs : List PyObj) (bs : List Nat)
    (henc : encodeList bin xs = .ok bs) (fuel : Nat) (hf : needItems xs ≤ fuel)
    (rest : List Nat) : parseItems fuel (bs ++ 101 :: rest) = some (xs, rest) := by
  obtain ⟨f, rfl⟩ : ∃ f, fuel = f + 1 := by
    have := one_le_needItems xs
    cases fuel with
    | zero => omega
    | succ f => exact ⟨f, rfl⟩
  cases xs with
  | nil =>
    rw [encodeList] at henc
    simp only [Except.ok.injEq] at henc
    subst henc
    simp [parseItems]
  | cons x tl =>
    rw [encodeList] at henc
    cases hx : encodeObj bin x with
    | error e => rw [hx] at henc; simp at henc
    | ok bx =>
      rw [hx] at henc
      cases ht : encodeList bin tl with
      | error e => rw [ht] at henc; simp at henc
      | ok bt =>
        rw [ht] at henc
        simp only [ok_bind, Except.ok.injEq] at henc
        subst henc
        obtain ⟨c, ctl, hc, hc101⟩ := encodeObj_head_ne bin x bx hx 101 (by omega)
        rw [needItems] at hf
        have hpv : parseVal f (bx ++ 97 :: (bt ++ 101 :: rest))
            = some (x, 97 :: (bt ++ 101 :: rest)) :=
          parseVal_encode bin x bx hx f (by omega) _
        have hpi : parseItems f (bt ++ 101 :: rest) = some (tl, rest) :=
          parseItems_encode bin tl bt ht f (by omega) rest
        subst hc
        have hshape : ((c :: ctl) ++ 97 :: bt) ++ 101 :: rest
            = c :: (ctl ++ 97 :: (bt ++ 101 :: rest)) := by simp
        rw [hshape]
        simp only [List.cons_append] at hpv
        simp [parseItems, hc101, hpv, hpi]
end

theorem stripHeader_ne (bs : List Nat) (c : Nat) (tl : List Nat)
    (h : bs = c :: tl) (hc : c ≠ 128) : stripHeader bs = bs := by
  subst h
  cases tl with
  | nil => rfl
  | cons y ys => simp [stripHeader, hc]

theorem loads_dumps (p : Int) (o : PyObj) (bs : List Nat)
    (h : dumps p o = .ok bs) : loads bs = some o := by
  rw [dumps] at h
  cases henc : encodeObj (decide (1 ≤ p)) o with
  | error e => rw [henc] at h; simp at h
  | ok body =>
    rw [henc] at h
    simp only [ok_bind, Except.ok.injEq] at h
    subst h
    have hneed := needVal_le _ _ _ henc
    have hparse : parseVal (body.length + 1) (body ++ [46]) = some (o, [46]) :=
      parseVal_encode _ o body henc _ (by omega) [46]
    by_cases hp : 2 ≤ p
    · rw [if_pos hp]
      have hx : (([128, p.toNat] : List Nat) ++ body) ++ [46]
          = 128 :: p.toNat :: (body ++ [46]) := by simp
      rw [hx]
      simp only [loads]
      simp [stripHeader, hparse]
    · rw [if_neg hp]
      simp only [List.nil_append]
      obtain ⟨c, ctl, hc, hc128⟩ := encodeObj_head_ne _ o body henc 128 (by omega)
      have hs : stripHeader (body ++ [46]) = body ++ [46] :=
        stripHeader_ne _ c (ctl ++ [46]) (by rw [hc]; simp) hc128
      simp only [loads]
      simp [hs, hparse]

theorem dumps_ok_plain (p : Int) (o : PyObj) (h : plainObj o = true) :
    ∃ body, encodeObj (decide (1 ≤ p)) o = .ok body ∧
      dumps p o = .ok ((if 2 ≤ p then [128, p.toNat] else []) ++ body ++ [46]) := by
  obtain ⟨body, hb⟩ := encodeObj_ok_of_plain (decide (1 ≤ p)) o h
  refine ⟨body, hb, ?_⟩
  rw [dumps, hb]
  rfl

theorem call_eq_of_dumps (p : Pickler) (o : PyObj) (bs : List Nat)
    (h : dumps p.protocol o = .ok bs) :
    p.call o = .ok (bs, [("file-ext", .str "pkl"), ("size", .nat bs.length),
      ("mime-type", .str "application/python-pickle")]) := by
  rw [Pickler.call, h]
  rfl

theorem call_ok_plain (p : Pickler) (o : PyObj) (h : plainObj o = true) :
    ∃ payload meta, p.call o = .ok (payload, meta) := by
  obtain ⟨body, _, hd⟩ := dumps_ok_plain p.protocol o h
  exact ⟨_, _, call_eq_of_dumps p o _ hd⟩

/-! ## The claims -/

/-- C1: for every object serializable by the configured protocol,
`Pickler.__call__` returns a pair of payload and metadata where the
metadata maps exactly the keys `file-ext`, `size` and `mime-type`, with
`size` equal to the byte length of the payload, `mime-type` equal to
`application/python-pickle` and `file-ext` equal to `pkl`. -/
theorem pickler_call_metadata (p : Pickler) (o : PyObj)
    (payload : List Nat) (meta : PMeta)
    (h : p.call o = .ok (payload, meta)) :
    lookupMeta meta "size" = some (.nat payload.length) ∧
    lookupMeta meta "mime-type" = some (.str "application/python-pickle") ∧
    lookupMeta meta "file-ext" = some (.str "pkl") ∧
    meta.map Prod.fst = ["file-ext", "size", "mime-type"] := by
  rw [Pickler.call] at h
  cases hd : dumps p.protocol o with
  | error e => rw [hd] at h; simp at h
  | ok data =>
    rw [hd] at h
    simp only [ok_bind, Except.ok.injEq, Prod.mk.injEq] at h
    obtain ⟨h1, h2⟩ := h
    subst h1
    subst h2
    exact ⟨rfl, rfl, rfl, rfl⟩

/-- Witness for C1 at the concrete input `5` with the default pickler. -/
theorem pickler_call_metadata_witness :
    Pickler.call {} (.int 5) = .ok ([128, 2, 75, 5, 46],
      [("file-ext", MetaVal.str "pkl"), ("size", MetaVal.nat 5),
       ("mime-type", MetaVal.str "application/python-pickle")]) ∧
    (lookupMeta [("file-ext", MetaVal.str "pkl"), ("size", MetaVal.nat 5),
        ("mime-type", MetaVal.str "application/python-pickle")] "size"
      = some (.nat ([128, 2, 75, 5, 46] : List Nat).length) ∧
     lookupMeta [("file-ext", MetaVal.str "pkl"), ("size", MetaVal.nat 5),
        ("mime-type", MetaVal.str "application/python-pickle")] "mime-type"
      = some (.str "application/python-pickle") ∧
     lookupMeta [("file-ext", MetaVal.str "pkl"), ("size", MetaVal.nat 5),
        ("mime-type", MetaVal.str "application/python-pickle")] "file-ext"
      = some (.str "pkl") ∧
     ([("file-ext", MetaVal.str "pkl"), ("size", MetaVal.nat 5),
        ("mime-type", MetaVal.str "application/python-pickle")] : PMeta).map
          Prod.fst = ["file-ext", "size", "mime-type"]) := by
  have h : Pickler.call {} (.int 5) = .ok ([128, 2, 75, 5, 46],
      [("file-ext", MetaVal.str "pkl"), ("size", MetaVal.nat 5),
       ("mime-type", MetaVal.str "application/python-pickle")]) := by
    have hd : dumps (2 : Int) (.int 5) = .ok [128, 2, 75, 5, 46] := by
      rw [dumps, encodeObj]
      simp
    have := call_eq_of_dumps {} (.int 5) [128, 2, 75, 5, 46] hd
    simpa using this
  exact ⟨h, pickler_call_metadata {} (.int 5) _ _ h⟩

/-- C2: for plain-data objects (nested ints, strings, lists), deserializing
the payload returned by `Pickler.__call__` with the generic deserialization
routine yields the original object. -/
theorem pickler_roundtrip (p : Pickler) (o : PyObj) (h : plainObj o = true) :
    ∃ payload meta, p.call o = .ok (payload, meta) ∧ loads payload = some o := by
  obtain ⟨body, _, hd⟩ := dumps_ok_plain p.protocol o h
  exact ⟨_, _, call_eq_of_dumps p o _ hd, loads_dumps p.protocol o _ hd⟩

/-- Witness for C2 at the concrete input `[1, 2, 3]` (the spec's example)
with the default pickler. -/
theorem pickler_roundtrip_witness :
    plainObj (.list [.int 1, .int 2, .int 3]) = true ∧
    ∃ payload meta,
      Pickler.call {} (.list [.int 1, .int 2, .int 3]) = .ok (payload, meta) ∧
      loads payload = some (.list [.int 1, .int 2, .int 3]) := by
  have h : plainObj (.list [.int 1, .int 2, .int 3]) = true := by
    simp [plainObj, plainList]
  exact ⟨h, pickler_roundtrip {} _ h⟩

/-- C6: `Pickler.__call__` is atomic: either it returns the full
payload/metadata pair (with the metadata describing that very payload), or
the underlying serialization routine's error is raised unchanged and
nothing is returned; there is no partial-success state. -/
theorem pickler_call_atomic (p : Pickler) (o : PyObj) :
    (∃ payload meta, p.call o = .ok (payload, meta) ∧
       lookupMeta meta "size" = some (.nat payload.length) ∧
       lookupMeta meta "mime-type" = some (.str "application/python-pickle") ∧
       lookupMeta meta "file-ext" = some (.str "pkl")) ∨
    (∃ e, dumps p.protocol o = .error e ∧ p.call o = .error e) := by
  cases hd : dumps p.protocol o with
  | ok data =>
    left
    exact ⟨data, _, call_eq_of_dumps p o data hd, rfl, rfl, rfl⟩
  | error e =>
    right
    refine ⟨e, rfl, ?_⟩
    rw [Pickler.call, hd]
    rfl

/-- C10: `Pickler.__call__` is deterministic and stateless: its result does
not depend on the ambient filesystem state, and it leaves that state
untouched, so two invocations at the same protocol return identical payload
bytes and identical metadata. -/
theorem pickler_call_deterministic (p : Pickler) (o : PyObj) (fs1 fs2 : FS) :
    (Pickler.callIn p fs1 o).2 = (Pickler.callIn p fs2 o).2 ∧
    (Pickler.callIn p fs1 o).1 = fs1 :=
  ⟨rfl, rfl⟩

/-- C3 (code bug): `Pickler.save` opens `basename + '.pkl'` in TEXT mode
(`'w'`) and then writes the binary pickle payload.  At the concrete input
below the file is created at the claimed path, but its contents are empty
rather than the payload returned by `Pickler.call`: the first binary write
to the text-mode handle raises `TypeError`, so the claimed equality of
file contents with the payload fails. -/
theorem pickler_save_text_mode_bug :
    ∃ payload meta, Pickler.call {} (.int 5) = .ok (payload, meta) ∧
      payload ≠ [] ∧
      fsRead (Pickler.save {} {} (.int 5) "name").1 "name.pkl" = some [] ∧
      some payload ≠ some ([] : List Nat) ∧
      (Pickler.save {} {} (.int 5) "name").2
        = .error (.typeError "write() argument must be str, not bytes") := by
  have hd : dumps (2 : Int) (.int 5) = .ok [128, 2, 75, 5, 46] := by
    rw [dumps, encodeObj]
    simp
  refine ⟨[128, 2, 75, 5, 46], _,
    by simpa using call_eq_of_dumps {} (.int 5) [128, 2, 75, 5, 46] hd,
    by simp, ?_, by simp, ?_⟩
  · simp [Pickler.save, pickleDumpTextMode, fsOpenW, fsClose, fsRead]
  · rfl

/-- C4: the base-class methods `Exporter.__call__`, `Exporter.save`,
`Archive.add` and `Archive.export` raise `NotImplementedError` on every
input and have no side effect: the filesystem and the archive state are
returned unchanged. -/
theorem base_methods_raise (obj : PyObj) (fmt : Option PyObj) (fs : FS)
    (basename : String) (a : Archive) (args : List PyObj)
    (kwargs : List (String × PyObj)) :
    Exporter.call obj fmt
      = .error (.notImplementedError (some "Exporter not implemented.")) ∧
    Exporter.save fs obj basename fmt
      = (fs, .error (.notImplementedError
          (some "Exporter save method not implemented."))) ∧
    Archive.add a obj args kwargs = (a, .error (.notImplementedError none)) ∧
    Archive.exportArchive a args kwargs
      = (a, .error (.notImplementedError none)) :=
  ⟨rfl, rfl, rfl, rfl⟩

/-- C7: `Pickler.save` releases the file handle it opened on every exit
path: here the exit is the exceptional one (the text-mode write raises),
and the set of open handles after the call equals the set before it. -/
theorem pickler_save_releases_handle (p : Pickler) (fs : FS) (obj : PyObj)
    (basename : String) :
    (Pickler.save p fs obj basename).1.openHandles = fs.openHandles ∧
    ∃ e, (Pickler.save p fs obj basename).2 = .error e := by
  constructor
  · simp [Pickler.save, pickleDumpTextMode, fsOpenW, fsClose,
      List.erase_cons_head]
  · exact ⟨_, rfl⟩

/-- C8: `Pickler.__call__` accepts exactly one argument: invoking a
`Pickler` with an additional format argument fails with a `TypeError`
(argument mismatch), whereas the base `Exporter.__call__` contract binds
the same two arguments (and then raises its `NotImplementedError`). -/
theorem pickler_call_arity (p : Pickler) (obj fmtArg : PyObj) :
    picklerInvoke p [obj, fmtArg]
      = .error (.typeError "__call__ takes 2 positional arguments") ∧
    exporterInvoke [obj, fmtArg]
      = .error (.notImplementedError (some "Exporter not implemented.")) :=
  ⟨rfl, rfl⟩

/-- C5: the `protocol` option defaults to 2, and for every plain object,
protocol 0 and protocol 2 produce different payload bytes while the
metadata semantics (`size` = payload length, same `mime-type` and
`file-ext`) are unchanged. -/
theorem pickler_protocol_change (o : PyObj) (h : plainObj o = true) :
    Pickler.protocol {} = 2 ∧
    ∃ b0 m0 b2 m2,
      Pickler.call ⟨0⟩ o = .ok (b0, m0) ∧
      Pickler.call ⟨2⟩ o = .ok (b2, m2) ∧
      b0 ≠ b2 ∧
      lookupMeta m0 "size" = some (.nat b0.length) ∧
      lookupMeta m2 "size" = some (.nat b2.length) ∧
      lookupMeta m0 "mime-type" = lookupMeta m2 "mime-type" ∧
      lookupMeta m0 "file-ext" = lookupMeta m2 "file-ext" := by
  refine ⟨rfl, ?_⟩
  obtain ⟨body0, hb0, hd0⟩ := dumps_ok_plain 0 o h
  obtain ⟨body2, hb2, hd2⟩ := dumps_ok_plain 2 o h
  have hd0a : dumps (0 : Int) o = .ok (body0 ++ [46]) := by
    rw [hd0]
    simp
  have hd2a : dumps (2 : Int) o = .ok (128 :: 2 :: (body2 ++ [46])) := by
    rw [hd2]
    simp
  have hc0 := call_eq_of_dumps ⟨0⟩ o _ hd0a
  have hc2 := call_eq_of_dumps ⟨2⟩ o _ hd2a
  refine ⟨_, _, _, _, hc0, hc2, ?_, rfl, rfl, rfl, rfl⟩
  obtain ⟨c, ctl, hcons, hc128⟩ := encodeObj_head_ne _ o body0 hb0 128 (by omega)
  intro heq
  rw [hcons] at heq
  simp only [List.cons_append] at heq
  injection heq with h1 _
  exact hc128 h1

/-- Witness for C5 at the concrete input `5`. -/
theorem pickler_protocol_change_witness :
    plainObj (.int 5) = true ∧
    (Pickler.protocol {} = 2 ∧
     ∃ b0 m0 b2 m2,
       Pickler.call ⟨0⟩ (.int 5) = .ok (b0, m0) ∧
       Pickler.call ⟨2⟩ (.int 5) = .ok (b2, m2) ∧
       b0 ≠ b2 ∧
       lookupMeta m0 "size" = some (.nat b0.length) ∧
       lookupMeta m2 "size" = some (.nat b2.length) ∧
       lookupMeta m0 "mime-type" = lookupMeta m2 "mime-type" ∧
       lookupMeta m0 "file-ext" = lookupMeta m2 "file-ext") := by
  have h : plainObj (.int 5) = true := by simp [plainObj]
  exact ⟨h, pickler_protocol_change (.int 5) h⟩

theorem applyOp_preserves (a : Archive) (op : ArchiveOp)
    (h : isExporterOrNone a.exporter = true) :
    isExporterOrNone (a.applyOp op).exporter = true := by
  cases op with
  | setExporter v =>
    by_cases hv : isExporterOrNone v = true
    · simp [Archive.applyOp, Archive.setExporter, hv]
    · simp [Archive.applyOp, Archive.setExporter, hv, h]
  | add obj args kwargs => simpa [Archive.applyOp, Archive.add] using h
  | exportOp args kwargs =>
    simpa [Archive.applyOp, Archive.exportArchive] using h

theorem archive_foldl_preserves (ops : List ArchiveOp) :
    ∀ a : Archive, isExporterOrNone a.exporter = true →
      isExporterOrNone (ops.foldl Archive.applyOp a).exporter = true := by
  induction ops with
  | nil => intro a h; exact h
  | cons op tl ih => intro a h; exact ih _ (applyOp_preserves a op h)

/-- C9: the `exporter` attribute of an `Archive` is validated by
`param.ClassSelector`: any archive constructed through validation keeps
`exporter` either `None` or an `Exporter` instance across every sequence
of operations, and assigning a non-`Exporter` value raises `ValueError`. -/
theorem archive_exporter_invariant (v0 : PyVal) (a0 : Archive)
    (h0 : archiveNew v0 = .ok a0) (ops : List ArchiveOp) :
    isExporterOrNone (ops.foldl Archive.applyOp a0).exporter = true ∧
    ∀ (a : Archive) (v : PyVal), isExporterOrNone v = false →
      Archive.setExporter a v
        = .error (.valueError "exporter must be an instance of Exporter") := by
  constructor
  · apply archive_foldl_preserves
    rw [archiveNew, Archive.setExporter] at h0
    split at h0
    · rename_i hv
      simp only [Except.ok.injEq] at h0
      subst h0
      exact hv
    · exact absurd h0 (by simp)
  · intro a v hv
    rw [Archive.setExporter, if_neg (by simp [hv])]

/-- Witness for C9: an archive constructed with exporter `None`, run through
an assignment of the integer 3 (rejected), an `add` and an `export`. -/
theorem archive_exporter_invariant_witness :
    archiveNew .pyNone = .ok ({ exporter := .pyNone } : Archive) ∧
    (isExporterOrNone (([ArchiveOp.setExporter (.pyInt 3),
        ArchiveOp.add (.int 1) [] [], ArchiveOp.exportOp [] []].foldl
          Archive.applyOp { exporter := .pyNone }).exporter) = true ∧
     ∀ (a : Archive) (v : PyVal), isExporterOrNone v = false →
       Archive.setExporter a v
         = .error (.valueError "exporter must be an instance of Exporter")) := by
  have h : archiveNew .pyNone = .ok ({ exporter := .pyNone } : Archive) := rfl
  exact ⟨h, archive_exporter_invariant .pyNone _ h _⟩

end HoloviewsIO
